import Mathlib

/-
  Verification of the ECCHO-Beam CDR normalization pipeline
  (src/core/cdr_processor.py, src/core/excel_generator.py, and the legacy
  variant src/attached_assets/cdr_newfunction_1755850437171.py).

  Python strings are modelled as lists of characters.  Missing tabular
  values (pandas NaN) are modelled with Option; the pandas astype(str)
  conversion that renders NaN as the literal string nan is modelled
  explicitly.  Python exceptions escaping a function are modelled with
  Except; exceptions caught inside a function are folded into its result.
-/

set_option autoImplicit false

namespace ECCHO

/-- Python strings, modelled as lists of Unicode characters. -/
abbrev Str := List Char

/-- Shorthand turning a Lean string literal into the model type. -/
def lit (s : String) : Str := s.toList

/-- Python str.strip() with no arguments: drop leading and trailing
whitespace. -/
def stripWs (l : Str) : Str :=
  ((l.dropWhile Char.isWhitespace).reverse.dropWhile Char.isWhitespace).reverse

/-- Python str.strip(chars) for a one-character set, used for strip of the
single quote character in to_seconds. -/
def stripChar (q : Char) (l : Str) : Str :=
  ((l.dropWhile (fun c => c = q)).reverse.dropWhile (fun c => c = q)).reverse

/-- Python str.lower(); the data handled here is ASCII, where
Char.toLower agrees with Python. -/
def pyLower (l : Str) : Str := l.map Char.toLower

/-- Python str.startswith. -/
def startsWithS (p l : Str) : Bool := p.isPrefixOf l

/-- Python str.endswith. -/
def endsWithS (p l : Str) : Bool := p.isSuffixOf l

/-- Python substring containment (needle in hay). -/
def pyIn (needle : Str) : Str → Bool
  | [] => needle.isEmpty
  | c :: rest => needle.isPrefixOf (c :: rest) || pyIn needle rest

/-- Python str.split(sep) for a one-character separator: splitting the
empty string yields one empty field. -/
def pySplit (sep : Char) : Str → List Str
  | [] => [[]]
  | c :: rest =>
    if c = sep then [] :: pySplit sep rest
    else
      match pySplit sep rest with
      | [] => [[c]]
      | a :: as => (c :: a) :: as

/-- Numeric value of a list of ASCII digits. -/
def digitsVal (l : Str) : Nat := l.foldl (fun a c => a * 10 + (c.toNat - 48)) 0

/-- Characters accepted by Python str.isdigit: Unicode Numeric_Type Digit
or Decimal.  Modelled here as the ASCII digits plus the super- and
subscript digits (U+00B2, U+00B3, U+00B9, U+2070, U+2074..U+2079,
U+2080..U+2089), which isdigit accepts although int() rejects them.
Further decimal scripts (Arabic-Indic and so on, accepted by both) are
outside the data handled here and are not modelled. -/
def pyIsDigitChar (c : Char) : Bool :=
  c.isDigit || c.toNat = 0xB2 || c.toNat = 0xB3 || c.toNat = 0xB9 ||
  c.toNat = 0x2070 || (0x2074 ≤ c.toNat && c.toNat ≤ 0x2079) ||
  (0x2080 ≤ c.toNat && c.toNat ≤ 0x2089)

/-- Model of Python int(string): optional surrounding whitespace, an
optional sign, then one or more decimal digits (underscore separators are
not modelled).  none models a ValueError. -/
def pythonInt? (l : Str) : Option Int :=
  match stripWs l with
  | [] => none
  | c :: rest =>
    if c = '-' then
      if rest.isEmpty then none
      else if rest.all Char.isDigit then some (-(digitsVal rest : Int)) else none
    else if c = '+' then
      if rest.isEmpty then none
      else if rest.all Char.isDigit then some (digitsVal rest : Int) else none
    else
      if (c :: rest).all Char.isDigit then some (digitsVal (c :: rest) : Int) else none

/-- Longest digit run at the front, with the remainder. -/
def takeDigits (l : Str) : Str × Str := (l.takeWhile Char.isDigit, l.dropWhile Char.isDigit)

/-- Exponent tail of a float literal: optional sign then digits. -/
def expVal? : Str → Option Int
  | '-' :: ds => if ds.isEmpty || !ds.all Char.isDigit then none else some (-(digitsVal ds : Int))
  | '+' :: ds => if ds.isEmpty || !ds.all Char.isDigit then none else some (digitsVal ds : Int)
  | ds => if ds.isEmpty || !ds.all Char.isDigit then none else some (digitsVal ds : Int)

/-- Model of Python int(float(string)): a decimal literal (optional sign,
digits with an optional fractional part, optional exponent) truncated
toward zero; none models a ValueError (and the inf and nan names, where
the outer int call raises).  The model truncates the exact decimal value;
IEEE rounding differs only beyond the double precision, which no claim
depends on. -/
def pythonFloatInt? (l : Str) : Option Int :=
  let s := stripWs l
  let neg : Bool := s.head? = some '-'
  let t := if s.head? = some '-' ∨ s.head? = some '+' then s.tail else s
  let ipr := takeDigits t
  let fpr : Str × Str :=
    match ipr.2 with
    | '.' :: r => takeDigits r
    | r => ([], r)
  if ipr.1.isEmpty && fpr.1.isEmpty then none
  else
    let e? : Option Int :=
      match fpr.2 with
      | [] => some 0
      | 'e' :: r => expVal? r
      | 'E' :: r => expVal? r
      | _ => none
    match e? with
    | none => none
    | some e =>
      let n : Nat := digitsVal (ipr.1 ++ fpr.1)
      let k : Nat := fpr.1.length
      let mag : Nat :=
        if (k : Int) ≤ e then n * 10 ^ (e - (k : Int)).toNat
        else n / 10 ^ ((k : Int) - e).toNat
      some (if neg then -(mag : Int) else (mag : Int))

/-- The H:M:S and M:S branches of to_seconds: split on the colon and map
int over the parts; none models a caught exception or an unhandled
length. -/
def colonSum? (s : Str) : Option Int :=
  match pySplit ':' s with
  | [a, b, c] =>
    match pythonInt? a, pythonInt? b, pythonInt? c with
    | some h, some m, some ss => some (h * 3600 + m * 60 + ss)
    | _, _, _ => none
  | [a, b] =>
    match pythonInt? a, pythonInt? b with
    | some m, some ss => some (m * 60 + ss)
    | _, _ => none
  | _ => none

/-- Model of CDRProcessor.to_seconds (src/core/cdr_processor.py, lines
144-162).  The input none models a pandas NaN (pd.isna branch).  The
s.isdigit() branch calls int(s) outside every try block, so a string of
digit-like characters rejected by int - such as a superscript digit -
raises an uncaught ValueError, modelled as Except.error. -/
def toSeconds (x : Option Str) : Except Unit Int :=
  match x with
  | none => .ok 0
  | some x0 =>
    let s := stripChar '\'' (stripWs x0)
    if s.isEmpty then .ok 0
    else if s.all pyIsDigitChar then
      match pythonInt? s with
      | some n => .ok n
      | none => .error ()
    else
      match colonSum? s with
      | some n => .ok n
      | none => .ok ((pythonFloatInt? s).getD 0)

/-- The leading-zero strip of normalize_msisdn: s[1:] when s starts with
a zero. -/
def dropLeadingZero (s : Str) : Str :=
  if startsWithS (lit "0") s then s.drop 1 else s

/-- The country-code strip of normalize_msisdn: drop the 91 prefix when
more than ten digits remain. -/
def strip91 (s : Str) : Str :=
  if s.length > 10 && startsWithS (lit "91") s then s.drop 2 else s

/-- Model of normalize_msisdn (src/core/cdr_processor.py, lines 194-201):
keep only digits (the regex class of digits, ASCII here), drop one leading
zero, and drop the country code 91 when more than ten digits remain. -/
def normalizeMsisdn (num : Str) : Str :=
  strip91 (dropLeadingZero (num.filter Char.isDigit))

/-- Merge adjacent spaces, the second half of the whitespace-run
replacement done by clean_text. -/
def squeezeSpaces : Str → Str
  | [] => []
  | [c] => [c]
  | a :: b :: rest =>
    if a = ' ' && b = ' ' then squeezeSpaces (b :: rest)
    else a :: squeezeSpaces (b :: rest)

/-- Model of clean_text (lines 210-213): collapse every whitespace run to
one space, then strip.  Inputs here are always strings (the None and NaN
branches yield the empty result and never arise after astype(str)). -/
def cleanText (s : Str) : Str :=
  stripWs (squeezeSpaces (s.map (fun c => if c.isWhitespace then ' ' else c)))

/-- Model of contains_sender_code (lines 203-208): the trimmed string is
non-empty and contains an ASCII letter (the regex A-Za-z class). -/
def containsSenderCode (s : Str) : Bool :=
  let st := stripWs s
  !st.isEmpty && st.any Char.isAlpha

/-- Night window configuration constant (line 16). -/
def NIGHT_START : Int := 18

/-- Night window configuration constant (line 17). -/
def NIGHT_END : Int := 6

/-- Model of is_night_hour (lines 215-226): none models a NaN hour
(missing timestamp), mapped to false; otherwise the wrap-around window
test.  The int conversion never fails on the hour values produced by the
pipeline. -/
def isNightHour (hour : Option Int) : Bool :=
  match hour with
  | none => false
  | some h => decide (NIGHT_START ≤ h) || decide (h < NIGHT_END)

/-- Model of derive_call_type (lines 289-306): lowercase the concatenated
call-type and TOC texts, detect sms by substring, then scan direction
keywords in the fixed order of the source. -/
def deriveCallType (ct toc : Str) : Str :=
  let s := pyLower (ct ++ lit " " ++ toc)
  if pyIn (lit "sms") s then
    if pyIn (lit "smsin") s || pyIn (lit "sms_in") s || pyIn (lit "inbound") s ||
        pyIn (lit "terminat") s || pyIn (lit "mt") s then lit "SMS_IN"
    else if pyIn (lit "smsout") s || pyIn (lit "sms_out") s || pyIn (lit "mo") s ||
        pyIn (lit "orig") s then lit "SMS_OUT"
    else if pyIn (lit " in") s || endsWithS (lit "in") (stripWs s) then lit "SMS_IN"
    else lit "SMS_OUT"
  else
    if pyIn (lit "incoming") s || pyIn (lit "mt") s || pyIn (lit "terminating") s ||
        pyIn (lit "a_in") s || pyIn (lit "term") s || pyIn (lit " in") s ||
        pyIn (lit "-in") s then lit "CALL_IN"
    else if pyIn (lit "outgoing") s || pyIn (lit "mo") s || pyIn (lit "originating") s ||
        pyIn (lit "a_out") s || pyIn (lit "orig") s || pyIn (lit " out") s ||
        pyIn (lit "-out") s then lit "CALL_OUT"
    else lit "CALL_OUT"

/-- The fall-through of pick_counterparty past the SMS sender-code
branches: opposite side of the target, then any non-empty normalized
number preferring B, then the raw-text fallback (b_raw or a_raw or the
empty string: a_raw is already the empty string in the final case). -/
def pickFromNumbers (aRaw bRaw aNum bNum t : Str) : Str :=
  if aNum = t ∧ bNum ≠ [] then bNum
  else if bNum = t ∧ aNum ≠ [] then aNum
  else if bNum ≠ [] then bNum
  else if aNum ≠ [] then aNum
  else if bRaw ≠ [] then bRaw
  else aRaw

/-- Model of pick_counterparty (src/core/cdr_processor.py, lines 336-361):
the row-wise counterparty resolution.  Arguments are the raw A and B
texts (after astype(str)), the normalized A and B numbers, the file-wide
monitored number and the standardized call type. -/
def pickCounterparty (arawIn brawIn aNum bNum t ctype : Str) : Str :=
  let aRaw := cleanText arawIn
  let bRaw := cleanText brawIn
  if startsWithS (lit "SMS") ctype = true then
    if containsSenderCode bRaw = true then bRaw
    else if containsSenderCode aRaw = true then aRaw
    else pickFromNumbers aRaw bRaw aNum bNum t
  else pickFromNumbers aRaw bRaw aNum bNum t

/-- Code-point lexicographic order on strings, the order pandas uses when
sorting string values. -/
def lexLt : Str → Str → Bool
  | [], [] => false
  | [], _ :: _ => true
  | _ :: _, [] => false
  | a :: as, b :: bs =>
    if a.toNat < b.toNat then true
    else if b.toNat < a.toNat then false
    else lexLt as bs

/-- One selection step of the mode computation: keep the more frequent
value, breaking frequency ties toward the lexicographically least. -/
def modeStep (l : List Str) (acc : Option Str) (x : Str) : Option Str :=
  match acc with
  | none => some x
  | some b =>
    if l.count x > l.count b then some x
    else if l.count x = l.count b then
      if lexLt x b then some x else some b
    else some b

/-- Model of Series.mode().iat[0] (lines 317-332): a value of maximal
frequency; pandas returns the modes sorted ascending, so ties resolve to
the lexicographically least.  The empty list models the IndexError
branch, caught in the source and turned into the empty string. -/
def modeMin (l : List Str) : Str :=
  (l.foldl (modeStep l) none).getD []

/-- A bounded numeric strptime field: one or two digits within a range. -/
def fieldNum? (l : Str) (lo hi : Nat) : Option Nat :=
  if l.isEmpty || decide (l.length > 2) || !l.all Char.isDigit then none
  else if lo ≤ digitsVal l ∧ digitsVal l ≤ hi then some (digitsVal l) else none

/-- strptime format H:M:S. -/
def parseHMS? (s : Str) : Option (Nat × Nat × Nat) :=
  match pySplit ':' s with
  | [a, b, c] => do
    let h ← fieldNum? a 0 23
    let m ← fieldNum? b 0 59
    let ss ← fieldNum? c 0 59
    pure (h, m, ss)
  | _ => none

/-- strptime format H:M. -/
def parseHM? (s : Str) : Option (Nat × Nat × Nat) :=
  match pySplit ':' s with
  | [a, b] => do
    let h ← fieldNum? a 0 23
    let m ← fieldNum? b 0 59
    pure (h, m, 0)
  | _ => none

/-- Twelve-hour clock conversion for the AM/PM strptime formats. -/
def hour24 (pm : Bool) (i : Nat) : Nat := if pm then i % 12 + 12 else i % 12

/-- strptime formats I:M:S AM/PM and I:M AM/PM (case-insensitive
half-day marker, separated by one space). -/
def parse12? (withSec : Bool) (s : Str) : Option (Nat × Nat × Nat) :=
  let low := pyLower s
  let marker := low.drop (low.length - 3)
  if low.length ≤ 3 || (marker ≠ lit " am" ∧ marker ≠ lit " pm") then none
  else
    let pm := marker = lit " pm"
    let body := low.take (low.length - 3)
    if withSec then
      match pySplit ':' body with
      | [a, b, c] => do
        let i ← fieldNum? a 1 12
        let m ← fieldNum? b 0 59
        let ss ← fieldNum? c 0 59
        pure (hour24 pm i, m, ss)
      | _ => none
    else
      match pySplit ':' body with
      | [a, b] => do
        let i ← fieldNum? a 1 12
        let m ← fieldNum? b 0 59
        pure (hour24 pm i, m, 0)
      | _ => none

/-- The bare HHMMSS and HHMM fallbacks of parse_time_field. -/
def parseBareDigitsTime? (s : Str) : Option (Nat × Nat × Nat) :=
  if s.length = 6 ∧ s.all Char.isDigit then
    let h := digitsVal (s.take 2)
    let m := digitsVal ((s.drop 2).take 2)
    let ss := digitsVal (s.drop 4)
    if h ≤ 23 ∧ m ≤ 59 ∧ ss ≤ 59 then some (h, m, ss) else none
  else if s.length = 4 ∧ s.all Char.isDigit then
    let h := digitsVal (s.take 2)
    let m := digitsVal (s.drop 2)
    if h ≤ 23 ∧ m ≤ 59 then some (h, m, 0) else none
  else none

/-- Model of parse_time_field (lines 164-182): the format list tried in
the order of the source; exotic inputs accepted by the underlying
datetime parser beyond these shapes are not modelled (no claim depends on
time parsing). -/
def parseTimeField (x : Str) : Option (Nat × Nat × Nat) :=
  let s := stripChar '\'' (stripWs x)
  parseHMS? s <|> parseHM? s <|> parse12? true s <|> parse12? false s <|>
    parseBareDigitsTime? s

/-- A calendar date as year, month, day. -/
abbrev Date := Nat × Nat × Nat

/-- Slash-separated numeric date, day first. -/
def parseDMY? (s : Str) : Option Date :=
  match pySplit '/' s with
  | [a, b, c] => do
    let d ← fieldNum? a 1 31
    let m ← fieldNum? b 1 12
    if c.length = 4 ∧ c.all Char.isDigit then pure (digitsVal c, m, d) else none
  | _ => none

/-- Slash-separated numeric date, month first. -/
def parseMDY? (s : Str) : Option Date :=
  match pySplit '/' s with
  | [a, b, c] => do
    let m ← fieldNum? a 1 12
    let d ← fieldNum? b 1 31
    if c.length = 4 ∧ c.all Char.isDigit then pure (digitsVal c, m, d) else none
  | _ => none

/-- Dash-separated ISO date, year first. -/
def parseISO? (s : Str) : Option Date :=
  match pySplit '-' s with
  | [c, b, a] => do
    let m ← fieldNum? b 1 12
    let d ← fieldNum? a 1 31
    if c.length = 4 ∧ c.all Char.isDigit then pure (digitsVal c, m, d) else none
  | _ => none

/-- Model of parse_date_field (lines 184-192): strip, turn dots into
slashes, then try a day-first reading before a month-first reading.
Modelled for numeric slash or ISO dates with four-digit years; the
underlying parser accepts more shapes and checks days per month, which no
claim depends on. -/
def parseDateField (x : Str) : Option Date :=
  let s := (stripChar '\'' (stripWs x)).map (fun c => if c = '.' then '/' else c)
  (parseDMY? s <|> parseISO? s) <|> parseMDY? s

/-- One raw CSV data row after header location and column alias
resolution: each canonical field either holds its cell text or is absent
(missing column, or an empty cell read as NaN).  Columns not used by any
claim are omitted from the model. -/
structure RawRow where
  target : Option Str := none
  aParty : Option Str := none
  bParty : Option Str := none
  callType : Option Str := none
  toc : Option Str := none
  callDate : Option Str := none
  callTime : Option Str := none
  duration : Option Str := none
deriving DecidableEq

/-- pandas Series.astype(str), as applied to every picked column in
standardize_rows: a missing value (NaN) becomes the literal string nan. -/
def extractStr (v : Option Str) : Str :=
  match v with
  | none => lit "nan"
  | some s => s

/-- The per-file normalized record, carrying the CanonicalRecord fields
the claims are about (columns of the std frame built in
standardize_rows). -/
structure Rec where
  araw : Str
  braw : Str
  callTypeStd : Str
  aNorm : Str
  bNorm : Str
  targetNorm : Str
  cdrNo : Str
  counterparty : Str
  duration : Int
  startDt : Option Nat
  hour : Option Int
  isNight : Bool
deriving DecidableEq

/-- The non-empty normalized target numbers of a file (Target_norm with
empty values dropped). -/
def targetNormsOf (rows : List RawRow) : List Str :=
  (rows.map (fun r => normalizeMsisdn (extractStr r.target))).filter (fun t => !t.isEmpty)

/-- The union of the non-empty normalized A-party and B-party numbers of
a file, in the order pd.concat produces. -/
def abNormsOf (rows : List RawRow) : List Str :=
  ((rows.map (fun r => normalizeMsisdn (extractStr r.aParty))) ++
    (rows.map (fun r => normalizeMsisdn (extractStr r.bParty)))).filter (fun t => !t.isEmpty)

/-- Model of the monitored-number (CdrNo) selection in standardize_rows
(lines 317-332): the mode of the non-empty normalized target numbers when
any exists, else the mode over the union of normalized A and B numbers;
the empty string when the chosen pool is empty (the caught IndexError
branch). -/
def monitoredOf (rows : List RawRow) : Str :=
  if targetNormsOf rows ≠ [] then modeMin (targetNormsOf rows)
  else modeMin (abNormsOf rows)

/-- Lexicographically monotone encoding of a combined date and time, the
sort key carried by start_dt. -/
def encodeDT (y m d hh mi se : Nat) : Nat :=
  ((y * 100 + m) * 100 + d) * 1000000 + hh * 10000 + mi * 100 + se

/-- Build the normalized record of one raw row, given the file-wide
monitored number and the parsed duration (the per-column work of
standardize_rows, lines 247-369). -/
def mkRec (cdr : Str) (r : RawRow) (d : Int) : Rec :=
  let araw := extractStr r.aParty
  let braw := extractStr r.bParty
  let aN := normalizeMsisdn araw
  let bN := normalizeMsisdn braw
  let ctype := deriveCallType (extractStr r.callType) (extractStr r.toc)
  let dObj := parseDateField (extractStr r.callDate)
  let tObj := parseTimeField (extractStr r.callTime)
  let sdt : Option Nat :=
    match dObj, tObj with
    | some (y, m, dd), some (hh, mi, se) => some (encodeDT y m dd hh mi se)
    | _, _ => none
  let hr : Option Int :=
    match sdt, tObj with
    | some _, some (hh, _, _) => some (hh : Int)
    | _, _ => none
  { araw := araw
    braw := braw
    callTypeStd := ctype
    aNorm := aN
    bNorm := bN
    targetNorm := normalizeMsisdn (extractStr r.target)
    cdrNo := cdr
    counterparty := pickCounterparty araw braw aN bN cdr ctype
    duration := d
    startDt := sdt
    hour := hr
    isNight := isNightHour hr }

/-- Normalize the rows of one file under a fixed monitored number.  The
only exception that can escape the row-wise work is the uncaught
ValueError of to_seconds, re-raised by the outer handler of
standardize_rows. -/
def stdRows (cdr : Str) : List RawRow → Except Str (List Rec)
  | [] => .ok []
  | r :: rest =>
    match toSeconds (some (extractStr r.duration)) with
    | .error _ => .error (lit "Error during data standardization")
    | .ok d =>
      match stdRows cdr rest with
      | .error e => .error e
      | .ok recs => .ok (mkRec cdr r d :: recs)

/-- Model of CDRProcessor.standardize_rows (src/core/cdr_processor.py,
lines 228-433): derive the monitored number once for the file and emit
one record per input row.  No row is dropped. -/
def standardizeCore (rows : List RawRow) : Except Str (List Rec) :=
  stdRows (monitoredOf rows) rows

/-- Model of the legacy standardize_rows
(src/attached_assets/cdr_newfunction_1755850437171.py, lines 202-326):
identical row-wise logic, followed by the final drop of rows whose
counterparty is blank after trimming (line 325). -/
def standardizeLegacy (rows : List RawRow) : Except Str (List Rec) :=
  (standardizeCore rows).map (List.filter (fun r => !(stripWs r.counterparty).isEmpty))

/-- An input file as the batch processors see it: either unreadable (any
exception while opening or parsing it) or a readable sequence of rows. -/
inductive FileInput where
  | unreadable (msg : Str)
  | readable (rows : List RawRow)
deriving DecidableEq

/-- Model of load_csv_file (lines 94-142): header location and column
resolution are abstracted into the readable row list; an unreadable file
raises. -/
def loadCsv : FileInput → Except Str (List RawRow)
  | .unreadable msg => .error (lit "Error loading CSV file: " ++ msg)
  | .readable rows => .ok rows

/-- Order on optional timestamps: ascending values with missing
timestamps (NaT) last, the pandas default na_position. -/
def optLe : Option Nat → Option Nat → Prop
  | none, none => True
  | none, some _ => False
  | some _, none => True
  | some x, some y => x ≤ y

instance optLeDec : ∀ x y : Option Nat, Decidable (optLe x y)
  | none, none => .isTrue trivial
  | none, some _ => .isFalse (fun h => h)
  | some _, none => .isTrue trivial
  | some x, some y => inferInstanceAs (Decidable (x ≤ y))

theorem optLe_total : ∀ x y, optLe x y ∨ optLe y x := by
  intro x y
  cases x <;> cases y <;> first
  | exact Or.inl trivial
  | exact Or.inr trivial
  | exact Nat.le_total _ _

theorem optLe_trans : ∀ x y z, optLe x y → optLe y z → optLe x z := by
  intro x y z
  cases x <;> cases y <;> cases z <;> first
  | exact fun _ _ => trivial
  | exact fun h _ => (h : False).elim
  | exact fun _ h => (h : False).elim
  | exact fun h1 h2 => Nat.le_trans h1 h2

/-- Sort order used by sort_values on start_dt. -/
def recLe (a b : Rec) : Prop := optLe a.startDt b.startDt

instance recLeDecidable : DecidableRel recLe := fun a b =>
  inferInstanceAs (Decidable (optLe a.startDt b.startDt))

instance recLeTotal : IsTotal Rec recLe where
  total a b := optLe_total a.startDt b.startDt

instance recLeTrans : IsTrans Rec recLe where
  trans a b c hab hbc := optLe_trans a.startDt b.startDt c.startDt hab hbc

/-- Model of the legacy merged.sort_values applied to start_dt: some
admissible reordering that is ascending on the key with missing
timestamps last (pandas leaves the order of ties unspecified). -/
def sortByStartDt (l : List Rec) : List Rec := List.insertionSort recLe l

/-- Model of the merge in CDRProcessor.process_files (line 458):
pd.concat of the per-file record streams, nothing else. -/
def mergeCore (stds : List (List Rec)) : List Rec := stds.flatten

/-- Model of CDRProcessor.process_files (src/core/cdr_processor.py, lines
435-468): load and standardize each file in order; any exception
propagates to the outer handler, which re-raises and aborts the whole
batch; on success the streams are concatenated without sorting. -/
def processFilesCore (files : List FileInput) : Except Str (List Rec) := do
  let stds ← files.mapM (fun f => do
    let raw ← loadCsv f
    standardizeCore raw)
  return mergeCore stds

/-- Model of the legacy process_files
(src/attached_assets/cdr_newfunction_1755850437171.py, lines 968-992):
each file that fails to load or standardize is logged and skipped; none
models the early return when no file survives; otherwise the surviving
streams are concatenated and sorted ascending by start_dt. -/
def processFilesLegacy (files : List FileInput) : Option (List Rec) :=
  let stds := files.filterMap (fun f =>
    match loadCsv f with
    | .error _ => none
    | .ok raw =>
      match standardizeLegacy raw with
      | .error _ => none
      | .ok s => some s)
  if stds.isEmpty then none
  else some (sortByStartDt (mergeCore stds))

/-- Whether an Except result is a success, used to state abort behaviour. -/
def isOkB {ε α : Type} (e : Except ε α) : Bool :=
  match e with
  | .ok _ => true
  | .error _ => false

/-- Model of the strict is_international predicate inside
create_isd_calls_sheet (src/core/excel_generator.py, lines 769-797).  The
input is the counterparty string; pd.isna cannot hold for it. -/
def isInternational (number : Str) : Bool :=
  let numStr := stripWs number
  if numStr.isEmpty then false
  else
    let numClean := numStr.filter (fun c => !(c = '+' || c = '-' || c = ' '))
    startsWithS (lit "00") numStr || startsWithS (lit "+") numStr ||
    decide (numClean.length > 12) ||
    (decide (numClean.length > 10) && !startsWithS (lit "91") numClean) ||
    (decide (numClean.length ≥ 10) && decide (numClean.take 1 = lit "1") &&
      decide (numClean.length = 11)) ||
    (decide (numClean.length ≥ 10) &&
      decide (numClean.take 2 ∈ [lit "44", lit "86", lit "33", lit "49", lit "39", lit "81"])) ||
    (decide (numClean.length ≥ 10) &&
      decide (numClean.take 3 ∈ [lit "971", lit "966", lit "974"])) ||
    (decide (numClean.length ≥ 8) &&
      !(startsWithS (lit "91") numClean || startsWithS (lit "6") numClean ||
        startsWithS (lit "7") numClean || startsWithS (lit "8") numClean ||
        startsWithS (lit "9") numClean))

/-- Model of the lenient is_international_lenient predicate (lines
820-833), applied when the strict pass selects nothing: anything that is
not a ten-digit number starting with 6, 7, 8 or 9. -/
def isInternationalLenient (number : Str) : Bool :=
  let numStr := stripWs number
  if numStr.isEmpty then false
  else
    let numClean := numStr.filter (fun c =>
      !(c = '+' || c = '-' || c = ' ' || c = '(' || c = ')'))
    if numClean.length ≠ 10 then true
    else if !(decide ¬numClean.isEmpty && numClean.all pyIsDigitChar) then true
    else if !(startsWithS (lit "6") numClean || startsWithS (lit "7") numClean ||
        startsWithS (lit "8") numClean || startsWithS (lit "9") numClean) then true
    else false

/-- Row selection of create_isd_calls_sheet (src/core/excel_generator.py,
lines 765-838): keep call rows, flag with the strict predicate, and fall
back to the lenient predicate when the strict pass selects nothing.  The
selected rows are the ones written to the ISDCalls sheet; column
formatting is omitted. -/
def createIsdRows (recs : List Rec) : List Rec :=
  let calls := recs.filter (fun r => startsWithS (lit "CALL") r.callTypeStd)
  let strict := calls.filter (fun r => isInternational r.counterparty)
  if strict.isEmpty then calls.filter (fun r => isInternationalLenient r.counterparty)
  else strict

/-- Number of digit characters in a string. -/
def digitCount (s : Str) : Nat := (s.filter Char.isDigit).length

/-- Model of the legacy build_isd_calls
(src/attached_assets/cdr_newfunction_1755850437171.py, lines 814-820):
keep exactly the rows whose counterparty holds at least eleven digits. -/
def buildIsdLegacy (recs : List Rec) : List Rec :=
  recs.filter (fun r => decide (digitCount r.counterparty ≥ 11))

/-- Whether a record resolved its counterparty through the raw-text
fallback of pick_counterparty (the final return of the source, reached
exactly when no SMS sender-code branch fired and both normalized numbers
are empty). -/
def usedRawFallback (r : Rec) : Bool :=
  (if startsWithS (lit "SMS") r.callTypeStd = true then
    !containsSenderCode (cleanText r.braw) && !containsSenderCode (cleanText r.araw)
  else true) && r.aNorm.isEmpty && r.bNorm.isEmpty

/-- Counterparty resolution exactly as worded in the specification and in
claim C1, branches (a) to (f): this definition follows the words of the
spec and is compared with the model of the source. -/
def specCounterparty (arawIn brawIn aNum bNum monitored ctype : Str) : Str :=
  let bText := cleanText brawIn
  let aText := cleanText arawIn
  if startsWithS (lit "SMS") ctype = true ∧ bText.any Char.isAlpha = true then bText
  else if startsWithS (lit "SMS") ctype = true ∧ aText.any Char.isAlpha = true then aText
  else if aNum = monitored ∧ bNum ≠ [] then bNum
  else if bNum = monitored ∧ aNum ≠ [] then aNum
  else if bNum ≠ [] then bNum
  else if aNum ≠ [] then aNum
  else if bText ≠ [] then bText
  else if aText ≠ [] then aText
  else []

/-! ### Helper lemmas -/

theorem stripWs_eq_rdrop (l : Str) :
    stripWs l = List.rdropWhile Char.isWhitespace (l.dropWhile Char.isWhitespace) := rfl

theorem stripWs_idem (l : Str) : stripWs (stripWs l) = stripWs l := by
  rw [stripWs_eq_rdrop, stripWs_eq_rdrop]
  have h1 : List.dropWhile Char.isWhitespace
      (List.rdropWhile Char.isWhitespace (l.dropWhile Char.isWhitespace)) =
      List.rdropWhile Char.isWhitespace (l.dropWhile Char.isWhitespace) := by
    rw [List.dropWhile_eq_self_iff]
    intro hl
    have hpre := List.rdropWhile_prefix Char.isWhitespace (l.dropWhile Char.isWhitespace)
    have hlen : 0 < (l.dropWhile Char.isWhitespace).length :=
      lt_of_lt_of_le hl hpre.length_le
    have hget := hpre.getElem hl
    have hnot := List.dropWhile_get_zero_not Char.isWhitespace l hlen
    simpa [List.get_eq_getElem, hget] using hnot
  rw [h1, List.rdropWhile_idempotent]

theorem stripWs_cleanText (x : Str) : stripWs (cleanText x) = cleanText x := by
  unfold cleanText
  exact stripWs_idem _

theorem containsSenderCode_cleanText (x : Str) :
    containsSenderCode (cleanText x) = (cleanText x).any Char.isAlpha := by
  unfold containsSenderCode
  rw [stripWs_cleanText]
  cases cleanText x <;> simp

/-! ### C1: counterparty resolution priority -/

/-- The function-level identity behind claim C1. -/
theorem pickCounterparty_eq_spec (araw braw aNum bNum t ctype : Str) :
    pickCounterparty araw braw aNum bNum t ctype =
    specCounterparty araw braw aNum bNum t ctype := by
  unfold pickCounterparty specCounterparty pickFromNumbers
  simp only [containsSenderCode_cleanText]
  by_cases hs : startsWithS (lit "SMS") ctype = true <;>
    by_cases hb : (cleanText braw).any Char.isAlpha = true <;>
    by_cases ha : (cleanText araw).any Char.isAlpha = true <;>
    by_cases hA : cleanText araw = [] <;>
    simp [hs, hb, ha, hA]

/-! ### C10: night-hour classification -/

/-- Claim C10: for every hour 0-23 the night classifier is true exactly
when the hour is at least NIGHT_START or below NIGHT_END, with the
configured boundaries 18 and 6; the four boundary hours behave as stated
and a missing hour yields false. -/
theorem is_night_hour_spec :
    (NIGHT_START = 18 ∧ NIGHT_END = 6) ∧
    (∀ h : Int, 0 ≤ h → h < 24 →
      (isNightHour (some h) = true ↔ (NIGHT_START ≤ h ∨ h < NIGHT_END))) ∧
    isNightHour (some 17) = false ∧ isNightHour (some 18) = true ∧
    isNightHour (some 5) = true ∧ isNightHour (some 6) = false ∧
    isNightHour none = false := by
  refine ⟨⟨rfl, rfl⟩, ?_, rfl, rfl, rfl, rfl, rfl⟩
  intro h _ _
  simp [isNightHour]

/-- Witness: the classification applied at the concrete hour 20. -/
theorem is_night_hour_spec_witness :
    (0 : Int) ≤ 20 ∧ (20 : Int) < 24 ∧
    (isNightHour (some 20) = true ↔ (NIGHT_START ≤ (20 : Int) ∨ (20 : Int) < NIGHT_END)) :=
  ⟨by decide, by decide, is_night_hour_spec.2.1 20 (by decide) (by decide)⟩

/-! ### C2: monitored-number selection -/

theorem modeStep_some (l : List Str) (b x : Str) :
    ∃ r, modeStep l (some b) x = some r ∧ (r = b ∨ r = x) ∧
      l.count b ≤ l.count r ∧ l.count x ≤ l.count r := by
  unfold modeStep
  by_cases h1 : l.count x > l.count b
  · exact ⟨x, by simp [h1], Or.inr rfl, le_of_lt h1, le_refl _⟩
  · by_cases h2 : l.count x = l.count b
    · by_cases h3 : lexLt x b = true
      · exact ⟨x, by simp [h1, h2, h3], Or.inr rfl, le_of_eq h2.symm, le_refl _⟩
      · exact ⟨b, by simp [h1, h2, h3], Or.inl rfl, le_refl _, le_of_eq h2⟩
    · exact ⟨b, by simp [h1, h2], Or.inl rfl, le_refl _, le_of_not_lt h1⟩

theorem foldl_modeStep (l : List Str) :
    ∀ (scan : List Str) (b : Str),
      ∃ r, scan.foldl (modeStep l) (some b) = some r ∧ (r = b ∨ r ∈ scan) ∧
        l.count b ≤ l.count r ∧ ∀ x ∈ scan, l.count x ≤ l.count r := by
  intro scan
  induction scan with
  | nil => exact fun b => ⟨b, rfl, Or.inl rfl, le_refl _, by simp⟩
  | cons a rest ih =>
    intro b
    obtain ⟨r1, hr1, hmem1, hb1, ha1⟩ := modeStep_some l b a
    obtain ⟨r, hr, hmem, hb, hall⟩ := ih r1
    refine ⟨r, by rw [List.foldl_cons, hr1]; exact hr, ?_, le_trans hb1 hb, ?_⟩
    · rcases hmem with h | h
      · subst h
        rcases hmem1 with h | h
        · exact Or.inl h
        · exact Or.inr (by simp [h])
      · exact Or.inr (List.mem_cons_of_mem a h)
    · intro x hx
      rcases List.mem_cons.mp hx with h | h
      · subst h
        exact le_trans ha1 hb
      · exact hall x h

/-- The value modeMin returns on a non-empty list belongs to the list and
has maximal frequency in it. -/
theorem modeMin_spec (l : List Str) (hl : l ≠ []) :
    modeMin l ∈ l ∧ ∀ x ∈ l, l.count x ≤ l.count (modeMin l) := by
  match l, hl with
  | a :: rest, _ =>
    unfold modeMin
    rw [List.foldl_cons]
    have hstep : modeStep (a :: rest) none a = some a := rfl
    rw [hstep]
    obtain ⟨r, hr, hmem, hb, hall⟩ := foldl_modeStep (a :: rest) rest a
    rw [hr]
    simp only [Option.getD_some]
    refine ⟨?_, ?_⟩
    · rcases hmem with h | h
      · simp [h]
      · exact List.mem_cons_of_mem a h
    · intro x hx
      rcases List.mem_cons.mp hx with h | h
      · subst h
        exact hb
      · exact hall x h

/-- Every record emitted by stdRows comes from one input row with its
parsed duration and the fixed monitored number. -/
theorem stdRows_mem {cdr : Str} :
    ∀ {rows : List RawRow} {recs : List Rec}, stdRows cdr rows = .ok recs →
      ∀ {x : Rec}, x ∈ recs →
        ∃ r ∈ rows, ∃ d : Int,
          toSeconds (some (extractStr r.duration)) = .ok d ∧ x = mkRec cdr r d := by
  intro rows
  induction rows with
  | nil =>
    intro recs h x hx
    simp only [stdRows] at h
    cases h
    cases hx
  | cons r rest ih =>
    intro recs h x hx
    simp only [stdRows] at h
    cases hts : toSeconds (some (extractStr r.duration)) with
    | error e => rw [hts] at h; cases h
    | ok d =>
      rw [hts] at h
      cases hrest : stdRows cdr rest with
      | error e => rw [hrest] at h; cases h
      | ok recs' =>
        rw [hrest] at h
        cases h
        rcases List.mem_cons.mp hx with hx1 | hx1
        · exact ⟨r, List.mem_cons_self r rest, d, hts, hx1⟩
        · obtain ⟨r', hr', d', hd', hx'⟩ := ih hrest hx1
          exact ⟨r', List.mem_cons_of_mem r hr', d', hd', hx'⟩

/-- The sixty-percent file of the claim: five rows, three of which carry
the target value and two of which lack it. -/
def c2file : List RawRow :=
  [ { target := some (lit "9876543210"), aParty := some (lit "9000000001") },
    { target := some (lit "9876543210"), aParty := some (lit "9000000002") },
    { target := some (lit "9876543210") },
    { aParty := some (lit "9000000003") },
    { bParty := some (lit "9000000004") } ]

/-- Claim C2: the monitored number is one value applied uniformly to the
whole file; when some non-empty normalized target exists it is a most
frequent such value, otherwise a most frequent value of the union of the
non-empty normalized A and B numbers; on a file where sixty percent of
the rows carry the target value it equals that value. -/
theorem monitored_number_is_mode :
    (∀ rows recs, standardizeCore rows = .ok recs →
      ∀ r ∈ recs, r.cdrNo = monitoredOf rows) ∧
    (∀ rows : List RawRow, targetNormsOf rows ≠ [] →
      monitoredOf rows ∈ targetNormsOf rows ∧
      ∀ x ∈ targetNormsOf rows,
        (targetNormsOf rows).count x ≤ (targetNormsOf rows).count (monitoredOf rows)) ∧
    (∀ rows : List RawRow, targetNormsOf rows = [] → abNormsOf rows ≠ [] →
      monitoredOf rows ∈ abNormsOf rows ∧
      ∀ x ∈ abNormsOf rows,
        (abNormsOf rows).count x ≤ (abNormsOf rows).count (monitoredOf rows)) ∧
    monitoredOf c2file = lit "9876543210" := by
  refine ⟨?_, ?_, ?_, by decide⟩
  · intro rows recs h r hr
    obtain ⟨row, _, d, _, hrec⟩ := stdRows_mem h hr
    rw [hrec]
    rfl
  · intro rows ht
    have : monitoredOf rows = modeMin (targetNormsOf rows) := by
      unfold monitoredOf
      rw [if_pos ht]
    rw [this]
    exact modeMin_spec _ ht
  · intro rows ht hab
    have : monitoredOf rows = modeMin (abNormsOf rows) := by
      unfold monitoredOf
      rw [if_neg (by simp [ht])]
    rw [this]
    exact modeMin_spec _ hab

/-- Witness: the mode characterisation applied to the sixty-percent
file. -/
theorem monitored_number_is_mode_witness :
    monitoredOf c2file = lit "9876543210" ∧
    monitoredOf c2file ∈ targetNormsOf c2file :=
  ⟨by decide, (monitored_number_is_mode.2.1 c2file (by decide)).1⟩

/-! ### C1: counterparty resolution priority -/

/-- Claim C1: for every normalized row the counterparty is resolved by the
fixed priority (a) SMS with a lettered cleaned raw B text, (b) SMS with a
lettered cleaned raw A text, (c) normalized A equals the monitored number
and normalized B non-empty, (d) the mirror case, (e) any non-empty
normalized number preferring B, (f) raw B text, then raw A text, then the
empty string - and by nothing else: the model of pick_counterparty
coincides with the resolution written from the words of the specification
on all inputs, and every record of the normalized stream carries exactly
that resolution of its own fields. -/
theorem pick_counterparty_matches_spec :
    (∀ araw braw aNum bNum t ctype : Str,
      pickCounterparty araw braw aNum bNum t ctype =
      specCounterparty araw braw aNum bNum t ctype) ∧
    (∀ rows recs, standardizeCore rows = .ok recs → ∀ r ∈ recs,
      r.counterparty =
        specCounterparty r.araw r.braw r.aNorm r.bNorm r.cdrNo r.callTypeStd) := by
  refine ⟨pickCounterparty_eq_spec, ?_⟩
  intro rows recs h r hr
  obtain ⟨row, -, d, -, hrec⟩ := stdRows_mem h hr
  subst hrec
  simp only [mkRec]
  exact pickCounterparty_eq_spec _ _ _ _ _ _

/-- An SMS row whose B party is the alphanumeric sender code VK-NSESMS,
the end-to-end scenario of the specification. -/
def c1row : RawRow :=
  { target := some (lit "9876543210"), aParty := some (lit "9876543210"),
    bParty := some (lit "VK-NSESMS"), callType := some (lit "sms in") }

/-- The record the sender-code file normalizes to: the counterparty is
the raw sender code, not a digit string. -/
def c1rec : Rec :=
  { araw := lit "9876543210", braw := lit "VK-NSESMS",
    callTypeStd := lit "SMS_IN", aNorm := lit "9876543210",
    bNorm := [], targetNorm := lit "9876543210",
    cdrNo := lit "9876543210", counterparty := lit "VK-NSESMS",
    duration := 0, startDt := none, hour := none, isNight := false }

/-- Witness: the record-level resolution applied to the concrete
sender-code stream. -/
theorem pick_counterparty_matches_spec_witness :
    standardizeCore [c1row] = .ok [c1rec] ∧
    c1rec.counterparty =
      specCounterparty c1rec.araw c1rec.braw c1rec.aNorm c1rec.bNorm
        c1rec.cdrNo c1rec.callTypeStd :=
  ⟨rfl, pick_counterparty_matches_spec.2 [c1row] [c1rec] rfl c1rec
    (List.mem_singleton.mpr rfl)⟩

/-! ### C4: counterparty versus the monitored number -/

theorem isAlpha_not_isDigit {c : Char} (h : c.isAlpha = true) : c.isDigit = false := by
  by_cases hd : c.isDigit = true
  · exfalso
    simp only [Char.isAlpha, Char.isUpper, Char.isLower, Bool.or_eq_true,
      Bool.and_eq_true, decide_eq_true_eq] at h
    simp only [Char.isDigit, Bool.and_eq_true, decide_eq_true_eq] at hd
    obtain ⟨h3, h4⟩ := hd
    have k4 : c ≤ ('9' : Char) := h4
    rcases h with ⟨h1, h2⟩ | ⟨h1, h2⟩
    · have k1 : ('A' : Char) ≤ c := h1
      exact absurd (le_trans k1 k4) (by decide)
    · have k1 : ('a' : Char) ≤ c := h1
      exact absurd (le_trans k1 k4) (by decide)
  · exact Bool.not_eq_true _ ▸ Bool.of_not_eq_true hd

theorem mem_of_mem_stripWs {c : Char} {l : Str} (h : c ∈ stripWs l) : c ∈ l := by
  rw [stripWs_eq_rdrop] at h
  exact (List.dropWhile_suffix Char.isWhitespace).subset
    ((List.rdropWhile_prefix Char.isWhitespace _).subset h)

theorem dropLeadingZero_subset (s : Str) : dropLeadingZero s ⊆ s := by
  unfold dropLeadingZero
  split
  · exact List.drop_subset _ _
  · exact List.Subset.refl _

theorem strip91_subset (s : Str) : strip91 s ⊆ s := by
  unfold strip91
  split
  · exact List.drop_subset _ _
  · exact List.Subset.refl _

theorem normalizeMsisdn_digits (x : Str) :
    ∀ c ∈ normalizeMsisdn x, c.isDigit = true := by
  intro c hc
  unfold normalizeMsisdn at hc
  exact List.of_mem_filter (dropLeadingZero_subset _ (strip91_subset _ hc))

theorem modeMin_digits {l : List Str} (hl : ∀ s ∈ l, ∀ c ∈ s, c.isDigit = true) :
    ∀ c ∈ modeMin l, c.isDigit = true := by
  by_cases h : l = []
  · subst h
    intro c hc
    cases hc
  · exact hl _ (modeMin_spec l h).1

/-- The monitored number derived for a file consists of digits only. -/
theorem monitoredOf_digits (rows : List RawRow) :
    ∀ c ∈ monitoredOf rows, c.isDigit = true := by
  unfold monitoredOf
  split
  · refine modeMin_digits ?_
    intro s hs
    obtain ⟨v, hv, hveq⟩ := List.mem_map.mp (List.mem_of_mem_filter hs)
    rw [← hveq]
    exact normalizeMsisdn_digits _
  · refine modeMin_digits ?_
    intro s hs
    rcases List.mem_append.mp (List.mem_of_mem_filter hs) with h | h <;>
      · obtain ⟨v, hv, hveq⟩ := List.mem_map.mp h
        rw [← hveq]
        exact normalizeMsisdn_digits _

/-- If the fall-through resolution returns the monitored number itself,
then either both normalized parties equal it, or at least one normalized
party is empty. -/
theorem pickFromNumbers_eq_t {aRaw bRaw aN bN t : Str}
    (h : pickFromNumbers aRaw bRaw aN bN t = t) :
    (aN = t ∧ bN = t) ∨ aN = [] ∨ bN = [] := by
  unfold pickFromNumbers at h
  split_ifs at h with h1 h2 h3 h4 h5
  · exact Or.inl ⟨h1.1, h⟩
  · by_cases hbnil : bN = []
    · exact Or.inr (Or.inr hbnil)
    · exact absurd ⟨h, hbnil⟩ h1
  · refine Or.inr (Or.inl ?_)
    by_contra hna
    exact h2 ⟨h, hna⟩
  · exact Or.inr (Or.inr (not_not.mp h3))
  · exact Or.inr (Or.inr (not_not.mp h3))
  · exact Or.inr (Or.inr (not_not.mp h3))

/-- If pick_counterparty returns the all-digit monitored number itself,
then either both normalized parties equal it, or at least one normalized
party is empty (the single-sided or raw fallback reached the value). -/
theorem pick_eq_monitored {araw braw aN bN t ctype : Str}
    (ht : ∀ c ∈ t, c.isDigit = true)
    (h : pickCounterparty araw braw aN bN t ctype = t) :
    (aN = t ∧ bN = t) ∨ aN = [] ∨ bN = [] := by
  have hsender : ∀ s : Str, containsSenderCode s = true → s ≠ t := by
    intro s hscode hst
    subst hst
    unfold containsSenderCode at hscode
    rcases Bool.and_eq_true_iff.mp hscode with ⟨-, hany⟩
    obtain ⟨c, hcmem, hcalpha⟩ := List.any_eq_true.mp hany
    have := ht c (mem_of_mem_stripWs hcmem)
    rw [isAlpha_not_isDigit hcalpha] at this
    cases this
  simp only [pickCounterparty] at h
  split_ifs at h with hs hcb hca
  · exact absurd h (hsender _ hcb)
  · exact absurd h (hsender _ hca)
  · exact pickFromNumbers_eq_t h
  · exact pickFromNumbers_eq_t h

/-- Claim C4 (amended): a record of the normalized stream can carry a
counterparty equal to the monitored number only when both normalized
parties equal it or at least one normalized party is empty; in the case
the original claim singles out - both normalized parties present and only
one equal to the monitored number - the counterparty always differs from
it. -/
theorem counterparty_eq_monitored_characterization :
    ∀ rows recs, standardizeCore rows = .ok recs → ∀ r ∈ recs,
      r.counterparty = r.cdrNo →
      (r.aNorm = r.cdrNo ∧ r.bNorm = r.cdrNo) ∨ r.aNorm = [] ∨ r.bNorm = [] := by
  intro rows recs h r hr heq
  obtain ⟨row, -, d, -, hrec⟩ := stdRows_mem h hr
  subst hrec
  simp only [mkRec] at heq ⊢
  exact pick_eq_monitored (monitoredOf_digits rows) heq

/-- A self-call row: both parties and the target all carry the monitored
number. -/
def c4row : RawRow :=
  { target := some (lit "9876543210"), aParty := some (lit "9876543210"),
    bParty := some (lit "9876543210"), callType := some (lit "call") }

/-- Counterexample to claim C4 as stated: in the stream normalized from
the self-call file, the record resolves its counterparty through the
normalized branch (no raw-text fallback) and the counterparty still
equals the non-empty monitored number. -/
theorem counterparty_equals_monitored_without_raw_fallback :
    (standardizeCore [c4row]).map
      (List.map (fun r => (r.counterparty, r.cdrNo, usedRawFallback r))) =
      .ok [(lit "9876543210", lit "9876543210", false)] ∧
    (lit "9876543210").isEmpty = false :=
  ⟨rfl, by decide⟩

/-- The record the self-call file normalizes to. -/
def c4rec : Rec :=
  { araw := lit "9876543210", braw := lit "9876543210",
    callTypeStd := lit "CALL_OUT", aNorm := lit "9876543210",
    bNorm := lit "9876543210", targetNorm := lit "9876543210",
    cdrNo := lit "9876543210", counterparty := lit "9876543210",
    duration := 0, startDt := none, hour := none, isNight := false }

/-- Witness: the characterisation applied to the concrete self-call
stream. -/
theorem counterparty_eq_monitored_characterization_witness :
    standardizeCore [c4row] = .ok [c4rec] ∧
    ((c4rec.aNorm = c4rec.cdrNo ∧ c4rec.bNorm = c4rec.cdrNo) ∨
      c4rec.aNorm = [] ∨ c4rec.bNorm = []) :=
  ⟨rfl, counterparty_eq_monitored_characterization [c4row] [c4rec] rfl c4rec
    (List.mem_singleton.mpr rfl) (by decide)⟩

/-! ### C3: empty-counterparty rows -/

/-- A row whose party cells hold only whitespace: every fallback of the
counterparty resolution yields the empty string. -/
def c3row : RawRow :=
  { target := some (lit "9876543210"), aParty := some (lit " "),
    bParty := some (lit " "), callType := some (lit "call") }

/-- Claim C3 evaluated on the code: the core standardize_rows emits the
record whose resolved counterparty is empty, while the legacy
standardize_rows drops it as the claim states. -/
theorem empty_counterparty_row_not_dropped_in_core :
    (standardizeCore [c3row]).map (List.map Rec.counterparty) = .ok [[]] ∧
    (standardizeLegacy [c3row]).map (List.map Rec.counterparty) = .ok [] :=
  ⟨rfl, rfl⟩

/-! ### C5: batch behaviour on an unreadable file -/

/-- A well-formed single-row file. -/
def c5goodRow : RawRow :=
  { target := some (lit "9876543210"), aParty := some (lit "9876543210"),
    bParty := some (lit "9812345670"), callType := some (lit "call"),
    duration := some (lit "30") }

/-- A readable input file. -/
def c5good : FileInput := .readable [c5goodRow]

/-- An unreadable input file. -/
def c5bad : FileInput := .unreadable (lit "disk error")

/-- Claim C5 evaluated on the code: one unreadable file makes the core
process_files abort the whole batch although the other file alone yields
records, while the legacy process_files skips the bad file and returns
exactly what the remaining file gives. -/
theorem bad_file_aborts_core_batch :
    isOkB (processFilesCore [c5bad, c5good]) = false ∧
    isOkB (processFilesCore [c5good]) = true ∧
    processFilesLegacy [c5bad, c5good] = processFilesLegacy [c5good] ∧
    (processFilesLegacy [c5good]).isSome = true :=
  ⟨rfl, rfl, rfl, rfl⟩

/-! ### C6: multi-file merge ordering -/

/-- A row stamped 02 Jan 2024, 10:00:00. -/
def c6rowLate : RawRow :=
  { target := some (lit "9876543210"), aParty := some (lit "9876543210"),
    bParty := some (lit "9812345670"), callType := some (lit "call"),
    callDate := some (lit "02/01/2024"), callTime := some (lit "10:00:00") }

/-- A row stamped 01 Jan 2024, 09:00:00. -/
def c6rowEarly : RawRow :=
  { target := some (lit "9876543210"), aParty := some (lit "9876543210"),
    bParty := some (lit "9812345671"), callType := some (lit "call"),
    callDate := some (lit "01/01/2024"), callTime := some (lit "09:00:00") }

/-- A row without a parseable timestamp. -/
def c6rowNoTs : RawRow :=
  { target := some (lit "9876543210"), aParty := some (lit "9876543210"),
    bParty := some (lit "9812345672"), callType := some (lit "call") }

/-- A file later in time than c6fileEarly. -/
def c6fileLate : FileInput := .readable [c6rowLate]

/-- A file earlier in time, with one null-timestamp row. -/
def c6fileEarly : FileInput := .readable [c6rowEarly, c6rowNoTs]

/-- Claim C6 evaluated on the code: the core process_files returns the
plain concatenation, which is not ascending in the timestamp, while the
legacy process_files sorts ascending with the null timestamp last and
keeps duplicate rows (no deduplication). -/
theorem core_merge_not_sorted :
    (processFilesCore [c6fileLate, c6fileEarly]).map (List.map Rec.startDt) =
      .ok [some 20240102100000, some 20240101090000, none] ∧
    (20240101090000 : Nat) < 20240102100000 ∧
    (processFilesLegacy [c6fileLate, c6fileEarly]).map (List.map Rec.startDt) =
      some [some 20240101090000, some 20240102100000, none] ∧
    (processFilesLegacy [c6fileLate, c6fileLate]).map (List.map Rec.startDt) =
      some [some 20240102100000, some 20240102100000] :=
  ⟨rfl, by decide, rfl, rfl⟩

/-! ### C7: international-call selection -/

theorem whitespace_not_digit {c : Char} (h : c.isWhitespace = true) :
    c.isDigit = false := by
  simp only [Char.isWhitespace, Bool.or_eq_true, decide_eq_true_eq, beq_iff_eq] at h
  rcases h with ((rfl | rfl) | rfl) | rfl <;> decide

theorem filter_digit_dropWhile_ws (l : Str) :
    (l.dropWhile Char.isWhitespace).filter Char.isDigit = l.filter Char.isDigit := by
  induction l with
  | nil => rfl
  | cons c r ih =>
    by_cases hc : c.isWhitespace = true
    · rw [List.dropWhile_cons_of_pos hc, ih,
        List.filter_cons_of_neg (by simp [whitespace_not_digit hc])]
    · rw [List.dropWhile_cons_of_neg (by simpa using hc)]

/-- Stripping surrounding whitespace does not change the digit count. -/
theorem digitCount_stripWs (l : Str) : digitCount (stripWs l) = digitCount l := by
  unfold digitCount
  rw [stripWs_eq_rdrop]
  unfold List.rdropWhile
  rw [List.filter_reverse, List.length_reverse, filter_digit_dropWhile_ws,
    List.filter_reverse, List.length_reverse, filter_digit_dropWhile_ws]

theorem digit_not_pms {c : Char} (h : c.isDigit = true) :
    c ≠ '+' ∧ c ≠ '-' ∧ c ≠ ' ' ∧ c ≠ '(' ∧ c ≠ ')' := by
  refine ⟨?_, ?_, ?_, ?_, ?_⟩ <;> rintro rfl <;> exact absurd h (by decide)

/-- Removing the plus, minus and space characters does not change the
digit count. -/
theorem digitCount_removePMS (l : Str) :
    digitCount (l.filter (fun c => !(decide (c = '+') || decide (c = '-') ||
      decide (c = ' ')))) = digitCount l := by
  unfold digitCount
  rw [List.filter_filter]
  refine congrArg List.length (List.filter_congr ?_)
  intro c hc
  by_cases hd : c.isDigit = true
  · obtain ⟨h1, h2, h3, -, -⟩ := digit_not_pms hd
    simp [hd, h1, h2, h3]
  · simp [Bool.not_eq_true _ ▸ Bool.of_not_eq_true hd]

theorem length_ge_digitCount (l : Str) : digitCount l ≤ l.length :=
  List.length_filter_le _ _

/-- A call record whose counterparty holds at least thirteen digits is
selected by the strict international test. -/
theorem isInternational_of_digits {cp : Str} (h : 13 ≤ digitCount cp) :
    isInternational cp = true := by
  unfold isInternational
  have hstrip : digitCount (stripWs cp) = digitCount cp := digitCount_stripWs cp
  have hne : (stripWs cp).isEmpty = false := by
    rcases hh : stripWs cp with _ | ⟨a, r⟩
    · exfalso
      have h0 : digitCount (stripWs cp) = 0 := by
        rw [hh]
        rfl
      rw [hstrip] at h0
      omega
    · rfl
  rw [if_neg (by simp [hne])]
  have hclean : 13 ≤ ((stripWs cp).filter (fun c => !(decide (c = '+') ||
      decide (c = '-') || decide (c = ' ')))).length := by
    calc 13 ≤ digitCount cp := h
    _ = digitCount (stripWs cp) := hstrip.symm
    _ = digitCount ((stripWs cp).filter _) := (digitCount_removePMS (stripWs cp)).symm
    _ ≤ _ := length_ge_digitCount _
  have h12 : decide (((stripWs cp).filter (fun c => !(decide (c = '+') ||
      decide (c = '-') || decide (c = ' ')))).length > 12) = true :=
    decide_eq_true (by omega)
  simp only [Bool.or_eq_true]
  tauto

/-- Claim C7 (amended): in the core ISDCalls selection every call row
whose counterparty holds thirteen or more digits is included, and a
ten-digit all-digit counterparty starting with 6 or 7 is never included;
the legacy build_isd_calls includes exactly the rows whose counterparty
holds eleven or more digits, which matches the original claim. -/
theorem isd_selection_characterization :
    (∀ (recs : List Rec) (r : Rec), r ∈ recs →
      startsWithS (lit "CALL") r.callTypeStd = true →
      13 ≤ digitCount r.counterparty → r ∈ createIsdRows recs) ∧
    (∀ (recs : List Rec) (r : Rec), r ∈ recs →
      r.counterparty.length = 10 →
      (∀ c ∈ r.counterparty, c.isDigit = true) →
      (r.counterparty.head? = some '6' ∨ r.counterparty.head? = some '7') →
      r ∉ createIsdRows recs) ∧
    (∀ (recs : List Rec) (r : Rec), r ∈ recs →
      11 ≤ digitCount r.counterparty → r ∈ buildIsdLegacy recs) ∧
    (∀ (recs : List Rec) (r : Rec), r ∈ buildIsdLegacy recs →
      11 ≤ digitCount r.counterparty) := by
  refine ⟨?_, ?_, ?_, ?_⟩
  · intro recs r hr hcall hd
    unfold createIsdRows
    have hcalls : r ∈ recs.filter (fun r => startsWithS (lit "CALL") r.callTypeStd) :=
      List.mem_filter.mpr ⟨hr, hcall⟩
    have hstrict : r ∈ (recs.filter (fun r => startsWithS (lit "CALL") r.callTypeStd)).filter
        (fun r => isInternational r.counterparty) :=
      List.mem_filter.mpr ⟨hcalls, isInternational_of_digits hd⟩
    rw [if_neg]
    · exact hstrict
    · simp only [List.isEmpty_iff]
      exact List.ne_nil_of_mem hstrict
  · intro recs r hr hlen hdig hhead
    have hnows : ∀ c ∈ r.counterparty, ¬c.isWhitespace = true := by
      intro c hc hw
      have := hdig c hc
      rw [whitespace_not_digit hw] at this
      cases this
    have hstrip : stripWs r.counterparty = r.counterparty := by
      unfold stripWs
      have h1 : r.counterparty.dropWhile Char.isWhitespace = r.counterparty := by
        rw [List.dropWhile_eq_self_iff]
        intro hl
        exact hnows _ (List.get_mem _ _ _)
      rw [h1]
      have h2 : r.counterparty.reverse.dropWhile Char.isWhitespace =
          r.counterparty.reverse := by
        rw [List.dropWhile_eq_self_iff]
        intro hl
        exact hnows _ (List.mem_reverse.mp (List.get_mem _ _ _))
      rw [h2, List.reverse_reverse]
    have hfilpms : r.counterparty.filter (fun c => !(decide (c = '+') ||
        decide (c = '-') || decide (c = ' '))) = r.counterparty := by
      rw [List.filter_eq_self]
      intro c hc
      obtain ⟨h1, h2, h3, -, -⟩ := digit_not_pms (hdig c hc)
      simp [h1, h2, h3]
    have hfilpar : r.counterparty.filter (fun c => !(decide (c = '+') ||
        decide (c = '-') || decide (c = ' ') || decide (c = '(') ||
        decide (c = ')'))) = r.counterparty := by
      rw [List.filter_eq_self]
      intro c hc
      obtain ⟨h1, h2, h3, h4, h5⟩ := digit_not_pms (hdig c hc)
      simp [h1, h2, h3, h4, h5]
    have hall : r.counterparty.all pyIsDigitChar = true :=
      List.all_eq_true.mpr (fun c hc => by simp [pyIsDigitChar, hdig c hc])
    obtain ⟨c0, c1, cp2, hcp, hc0⟩ :
        ∃ c0 c1 cp2, r.counterparty = c0 :: c1 :: cp2 ∧ (c0 = '6' ∨ c0 = '7') := by
      rcases hcp : r.counterparty with _ | ⟨a0, _ | ⟨a1, rest⟩⟩
      · rw [hcp] at hlen
        cases hlen
      · rw [hcp] at hlen
        cases hlen
      · refine ⟨a0, a1, rest, rfl, ?_⟩
        rw [hcp] at hhead
        rcases hhead with h | h
        · exact Or.inl (Option.some_inj.mp h)
        · exact Or.inr (Option.some_inj.mp h)
    have e00 : lit "00" = ['0', '0'] := rfl
    have ep : lit "+" = ['+'] := rfl
    have e91 : lit "91" = ['9', '1'] := rfl
    have e1 : lit "1" = ['1'] := rfl
    have e44 : lit "44" = ['4', '4'] := rfl
    have e86 : lit "86" = ['8', '6'] := rfl
    have e33 : lit "33" = ['3', '3'] := rfl
    have e49 : lit "49" = ['4', '9'] := rfl
    have e39 : lit "39" = ['3', '9'] := rfl
    have e81 : lit "81" = ['8', '1'] := rfl
    have e971 : lit "971" = ['9', '7', '1'] := rfl
    have e966 : lit "966" = ['9', '6', '6'] := rfl
    have e974 : lit "974" = ['9', '7', '4'] := rfl
    have e6 : lit "6" = ['6'] := rfl
    have e7 : lit "7" = ['7'] := rfl
    have e8 : lit "8" = ['8'] := rfl
    have e9 : lit "9" = ['9'] := rfl
    have hstrictFalse : isInternational r.counterparty = false := by
      rw [Bool.eq_false_iff]
      intro hX
      simp only [isInternational] at hX
      rw [hstrip, hfilpms] at hX
      rcases hc0 with h6 | h6 <;>
        · rw [hcp, h6] at hX hlen
          simp [startsWithS, List.isPrefixOf, hlen, e00, ep, e91, e1, e44, e86,
            e33, e49, e39, e81, e971, e966, e974, e6, e7, e8, e9] at hX
    have hlenientFalse : isInternationalLenient r.counterparty = false := by
      rw [Bool.eq_false_iff]
      intro hX
      simp only [isInternationalLenient] at hX
      rw [hstrip, hfilpar] at hX
      rcases hc0 with h6 | h6 <;>
        · rw [hcp, h6] at hX hlen hall
          simp [startsWithS, List.isPrefixOf, hlen, hall, e6, e7, e8, e9] at hX
    intro hmem
    simp only [createIsdRows] at hmem
    split at hmem
    · have := (List.mem_filter.mp hmem).2
      rw [hlenientFalse] at this
      cases this
    · have := (List.mem_filter.mp hmem).2
      rw [hstrictFalse] at this
      cases this
  · intro recs r hr hd
    exact List.mem_filter.mpr ⟨hr, decide_eq_true hd⟩
  · intro recs r hr
    exact of_decide_eq_true (List.mem_filter.mp hr).2

/-- A call row with a thirteen-digit international counterparty. -/
def c7rowIntl : RawRow :=
  { target := some (lit "9876543210"), aParty := some (lit "9876543210"),
    bParty := some (lit "4412345678901"), callType := some (lit "call") }

/-- A call row whose B party normalizes to a twelve-digit number that
starts with 91. -/
def c7rowTwelve : RawRow :=
  { target := some (lit "9876543210"), aParty := some (lit "9876543210"),
    bParty := some (lit "91911234567890"), callType := some (lit "call") }

/-- A call row with a ten-digit counterparty starting with 86. -/
def c7row86 : RawRow :=
  { target := some (lit "9876543210"), aParty := some (lit "9876543210"),
    bParty := some (lit "8612345678"), callType := some (lit "call") }

/-- Counterexample to claim C7 as stated: in the ISDCalls selection built
from the normalized records, the call row whose counterparty holds twelve
digits (911234567890) is not included, and the call row whose counterparty
is the ten-digit domestic number 8612345678 is included. -/
theorem isd_claim_fails_on_core :
    (standardizeCore [c7rowIntl, c7rowTwelve]).map (List.map Rec.counterparty) =
      .ok [lit "4412345678901", lit "911234567890"] ∧
    (standardizeCore [c7rowIntl, c7rowTwelve]).map (List.map Rec.callTypeStd) =
      .ok [lit "CALL_OUT", lit "CALL_OUT"] ∧
    (standardizeCore [c7rowIntl, c7rowTwelve]).map
      (fun recs => (createIsdRows recs).map Rec.counterparty) =
      .ok [lit "4412345678901"] ∧
    digitCount (lit "911234567890") = 12 ∧
    (standardizeCore [c7row86]).map
      (fun recs => (createIsdRows recs).map Rec.counterparty) =
      .ok [lit "8612345678"] ∧
    digitCount (lit "8612345678") = 10 ∧
    (lit "8612345678").length = 10 :=
  ⟨rfl, rfl, rfl, by decide, rfl, by decide, by decide⟩

/-- A normalized call record with a thirteen-digit counterparty. -/
def c7rec : Rec :=
  { araw := lit "9876543210", braw := lit "4412345678901",
    callTypeStd := lit "CALL_OUT", aNorm := lit "9876543210",
    bNorm := lit "4412345678901", targetNorm := lit "9876543210",
    cdrNo := lit "9876543210", counterparty := lit "4412345678901",
    duration := 0, startDt := none, hour := none, isNight := false }

/-- Witness: the amended selection characterisation applied to a concrete
call record with thirteen digits. -/
theorem isd_selection_characterization_witness :
    startsWithS (lit "CALL") c7rec.callTypeStd = true ∧
    13 ≤ digitCount c7rec.counterparty ∧
    c7rec ∈ createIsdRows [c7rec] :=
  ⟨by decide, by decide, isd_selection_characterization.1 [c7rec] c7rec
    (List.mem_singleton.mpr rfl) (by decide) (by decide)⟩

/-! ### C8 and C9: the duration parser -/

theorem dropWhile_eq_self_of {p : Char → Bool} {l : Str}
    (h : ∀ ch ∈ l, p ch = false) : l.dropWhile p = l := by
  cases l with
  | nil => rfl
  | cons c r =>
    exact List.dropWhile_cons_of_neg (by simp [h c (List.mem_cons_self c r)])

theorem strip_eq_self_aux {p : Char → Bool} {l : Str}
    (h : ∀ ch ∈ l, p ch = false) :
    ((l.dropWhile p).reverse.dropWhile p).reverse = l := by
  rw [dropWhile_eq_self_of h,
    dropWhile_eq_self_of (fun ch hc => h ch (List.mem_reverse.mp hc)),
    List.reverse_reverse]

theorem stripWs_eq_self {l : Str} (h : ∀ ch ∈ l, ch.isWhitespace = false) :
    stripWs l = l :=
  strip_eq_self_aux h

theorem stripChar_eq_self {q : Char} {l : Str} (h : ∀ ch ∈ l, ch ≠ q) :
    stripChar q l = l := by
  unfold stripChar
  exact strip_eq_self_aux (fun ch hc => by simp [h ch hc])

theorem mem_of_mem_stripChar {q c : Char} {l : Str} (h : c ∈ stripChar q l) :
    c ∈ l := by
  unfold stripChar at h
  exact (List.dropWhile_suffix _).subset
    (List.mem_reverse.mp ((List.dropWhile_suffix _).subset (List.mem_reverse.mp h)))

theorem digit_ne {c : Char} (h : c.isDigit = true) (d : Char)
    (hd : d.isDigit = false) : c ≠ d := by
  intro e
  rw [e, hd] at h
  cases h

theorem digit_not_ws {c : Char} (h : c.isDigit = true) : c.isWhitespace = false := by
  cases hw : c.isWhitespace
  · rfl
  · rw [whitespace_not_digit hw] at h
    cases h

theorem pythonInt?_nil : pythonInt? [] = none := rfl

theorem pythonInt?_digits {s : Str} (hne : s ≠ [])
    (hd : ∀ ch ∈ s, ch.isDigit = true) :
    pythonInt? s = some (digitsVal s : Int) := by
  unfold pythonInt?
  rw [stripWs_eq_self (fun ch hc => digit_not_ws (hd ch hc))]
  cases s with
  | nil => exact absurd rfl hne
  | cons c rest =>
    have hc := hd c (List.mem_cons_self c rest)
    dsimp only
    rw [if_neg (digit_ne hc '-' (by decide)), if_neg (digit_ne hc '+' (by decide)),
      if_pos (List.all_eq_true.mpr hd)]

theorem pythonInt?_nonneg {s : Str} {v : Int} (hnm : '-' ∉ s)
    (h : pythonInt? s = some v) : 0 ≤ v := by
  unfold pythonInt? at h
  cases hs : stripWs s with
  | nil => rw [hs] at h; cases h
  | cons c rest =>
    rw [hs] at h
    dsimp only at h
    have hcmem : c ∈ s := mem_of_mem_stripWs (by rw [hs]; exact List.mem_cons_self c rest)
    have hcm : ¬(c = '-') := fun e => hnm (e ▸ hcmem)
    rw [if_neg hcm] at h
    by_cases hcp : c = '+'
    · rw [if_pos hcp] at h
      split_ifs at h
      injection h with h
      rw [← h]
      exact Int.natCast_nonneg _
    · rw [if_neg hcp] at h
      split_ifs at h
      injection h with h
      rw [← h]
      exact Int.natCast_nonneg _

theorem pythonFloatInt?_nonneg {s : Str} {v : Int} (hnm : '-' ∉ s)
    (h : pythonFloatInt? s = some v) : 0 ≤ v := by
  simp only [pythonFloatInt?] at h
  have hnegf : ¬((stripWs s).head? = some '-') := by
    intro he
    apply hnm
    refine mem_of_mem_stripWs ?_
    cases hs : stripWs s with
    | nil => rw [hs] at he; cases he
    | cons c rest =>
      rw [hs] at he
      have hc : c = '-' := by simpa using he
      subst hc
      exact List.mem_cons_self _ _
  by_cases hsign : (stripWs s).head? = some '-' ∨ (stripWs s).head? = some '+' <;>
    [rw [if_pos hsign] at h; rw [if_neg hsign] at h] <;>
    · split at h
      · cases h
      · split at h
        · cases h
        · injection h with h
          rw [← h]
          split
          · rename_i hcond
            exact absurd (of_decide_eq_true hcond) hnegf
          · exact Int.natCast_nonneg _

theorem pySplit_not_mem {sep : Char} {a : Str} (h : sep ∉ a) :
    pySplit sep a = [a] := by
  induction a with
  | nil => rfl
  | cons c r ih =>
    have hc : ¬(c = sep) := fun e => h (e ▸ List.mem_cons_self c r)
    simp only [pySplit, if_neg hc, ih (fun hm => h (List.mem_cons_of_mem c hm))]

theorem pySplit_append {sep : Char} {a rest : Str} (h : sep ∉ a) :
    pySplit sep (a ++ sep :: rest) = a :: pySplit sep rest := by
  induction a with
  | nil => simp [pySplit]
  | cons c r ih =>
    have hc : ¬(c = sep) := fun e => h (e ▸ List.mem_cons_self c r)
    have ih2 := ih (fun hm => h (List.mem_cons_of_mem c hm))
    simp only [List.cons_append, pySplit, if_neg hc, List.append_eq, ih2]

theorem pySplit_chars {sep : Char} :
    ∀ {l : Str} {p : Str}, p ∈ pySplit sep l → ∀ {ch : Char}, ch ∈ p → ch ∈ l := by
  intro l
  induction l with
  | nil =>
    intro p hp ch hch
    simp only [pySplit, List.mem_singleton] at hp
    subst hp
    cases hch
  | cons c rest ih =>
    intro p hp ch hch
    by_cases hc : c = sep
    · simp only [pySplit, if_pos hc] at hp
      rcases List.mem_cons.mp hp with rfl | hpr
      · cases hch
      · exact List.mem_cons_of_mem _ (ih hpr hch)
    · simp only [pySplit, if_neg hc] at hp
      cases hsp : pySplit sep rest with
      | nil =>
        rw [hsp] at hp
        simp only [List.mem_singleton] at hp
        subst hp
        simp only [List.mem_singleton] at hch
        subst hch
        exact List.mem_cons_self _ _
      | cons a as =>
        rw [hsp] at hp
        rcases List.mem_cons.mp hp with rfl | hpas
        · rcases List.mem_cons.mp hch with rfl | hcha
          · exact List.mem_cons_self _ _
          · exact List.mem_cons_of_mem _
              (ih (by rw [hsp]; exact List.mem_cons_self a as) hcha)
        · exact List.mem_cons_of_mem _
            (ih (by rw [hsp]; exact List.mem_cons_of_mem a hpas) hch)

theorem colonSum?_nonneg {s : Str} {v : Int} (hnm : '-' ∉ s)
    (h : colonSum? s = some v) : 0 ≤ v := by
  have hpart : ∀ p ∈ pySplit ':' s, '-' ∉ p :=
    fun p hp hm => hnm (pySplit_chars hp hm)
  unfold colonSum? at h
  split at h
  case _ a b c heq =>
    have ha := hpart a (by rw [heq]; exact List.mem_cons_self _ _)
    have hb := hpart b (by rw [heq]; exact List.mem_cons_of_mem _ (List.mem_cons_self _ _))
    have hc := hpart c (by
      rw [heq]
      exact List.mem_cons_of_mem _ (List.mem_cons_of_mem _ (List.mem_cons_self _ _)))
    split at h
    case _ hh mm ss hA hB hC =>
      injection h with h
      have n1 := pythonInt?_nonneg ha hA
      have n2 := pythonInt?_nonneg hb hB
      have n3 := pythonInt?_nonneg hc hC
      omega
    case _ => cases h
  case _ a b heq =>
    have ha := hpart a (by rw [heq]; exact List.mem_cons_self _ _)
    have hb := hpart b (by rw [heq]; exact List.mem_cons_of_mem _ (List.mem_cons_self _ _))
    split at h
    case _ mm ss hA hB =>
      injection h with h
      have n1 := pythonInt?_nonneg ha hA
      have n2 := pythonInt?_nonneg hb hB
      omega
    case _ => cases h
  case _ => cases h

/-- Core non-negativity of the parsed duration for inputs without a minus
sign. -/
theorem toSeconds_nonneg_aux :
    ∀ s : Str, '-' ∉ s → ∀ n : Int, toSeconds (some s) = .ok n → 0 ≤ n := by
  intro s hnm n h
  simp only [toSeconds] at h
  have hnm' : '-' ∉ stripChar '\'' (stripWs s) :=
    fun hm => hnm (mem_of_mem_stripWs (mem_of_mem_stripChar hm))
  split_ifs at h with h1 h2
  · injection h with h
    omega
  · cases hp : pythonInt? (stripChar '\'' (stripWs s)) with
    | some v =>
      rw [hp] at h
      injection h with h
      exact h ▸ pythonInt?_nonneg hnm' hp
    | none =>
      rw [hp] at h
      cases h
  · cases hc : colonSum? (stripChar '\'' (stripWs s)) with
    | some v =>
      rw [hc] at h
      injection h with h
      exact h ▸ colonSum?_nonneg hnm' hc
    | none =>
      rw [hc] at h
      cases hf : pythonFloatInt? (stripChar '\'' (stripWs s)) with
      | some v =>
        rw [hf] at h
        injection h with h
        exact h ▸ pythonFloatInt?_nonneg hnm' hf
      | none =>
        rw [hf] at h
        injection h with h
        rw [Option.getD_none] at h
        omega

/-- On ASCII characters the Python isdigit test coincides with the
decimal-digit test that int() uses. -/
theorem ascii_pyDigit_isDigit {c : Char} (ha : c.toNat < 128)
    (h : pyIsDigitChar c = true) : c.isDigit = true := by
  simp only [pyIsDigitChar, Bool.or_eq_true, Bool.and_eq_true,
    decide_eq_true_eq] at h
  rcases h with ((((((h | h) | h) | h) | h) | h) | h)
  · exact h
  · omega
  · omega
  · omega
  · omega
  · rcases h with ⟨h1, h2⟩
    omega
  · rcases h with ⟨h1, h2⟩
    omega

/-- An integer literal as Python int() accepts it, with no whitespace,
quote or colon characters, together with its value. -/
def PyIntPlain (l : Str) (v : Int) : Prop :=
  pythonInt? l = some v ∧
  ∀ ch ∈ l, ch.isWhitespace = false ∧ ch ≠ '\'' ∧ ch ≠ ':'

/-- Claim C8 (amended): to_seconds maps every H:M:S string with integer
components to 3600 H + 60 M + S, maps the absent value, the empty string
and every unparseable input to 0, and completes without an exception on
every ASCII input; it is not exception-free on all inputs, since a
digit-like character rejected by int - such as the superscript two -
reaches the uncaught int(s) call. -/
theorem to_seconds_spec :
    (∀ (a b c : Str) (H M S : Int), PyIntPlain a H → PyIntPlain b M → PyIntPlain c S →
      toSeconds (some (a ++ ':' :: (b ++ ':' :: c))) = .ok (3600 * H + 60 * M + S)) ∧
    toSeconds none = .ok 0 ∧
    (∀ x : Str, stripChar '\'' (stripWs x) = [] → toSeconds (some x) = .ok 0) ∧
    (∀ x : Str,
      ¬(stripChar '\'' (stripWs x) ≠ [] ∧
        (stripChar '\'' (stripWs x)).all pyIsDigitChar = true) →
      colonSum? (stripChar '\'' (stripWs x)) = none →
      pythonFloatInt? (stripChar '\'' (stripWs x)) = none →
      toSeconds (some x) = .ok 0) ∧
    (∀ x : Str, (∀ ch ∈ x, ch.toNat < 128) → ∃ n : Int, toSeconds (some x) = .ok n) := by
  refine ⟨?_, rfl, ?_, ?_, ?_⟩
  · intro a b c H M S hA hB hC
    obtain ⟨hAv, hAch⟩ := hA
    obtain ⟨hBv, hBch⟩ := hB
    obtain ⟨hCv, hCch⟩ := hC
    have hchars : ∀ ch ∈ a ++ ':' :: (b ++ ':' :: c),
        ch.isWhitespace = false ∧ ch ≠ '\'' := by
      intro ch hm
      rcases List.mem_append.mp hm with hm | hm
      · exact ⟨(hAch ch hm).1, (hAch ch hm).2.1⟩
      · rcases List.mem_cons.mp hm with rfl | hm
        · exact ⟨by decide, by decide⟩
        · rcases List.mem_append.mp hm with hm | hm
          · exact ⟨(hBch ch hm).1, (hBch ch hm).2.1⟩
          · rcases List.mem_cons.mp hm with rfl | hm
            · exact ⟨by decide, by decide⟩
            · exact ⟨(hCch ch hm).1, (hCch ch hm).2.1⟩
    have hstrip : stripChar '\'' (stripWs (a ++ ':' :: (b ++ ':' :: c))) =
        a ++ ':' :: (b ++ ':' :: c) := by
      rw [stripWs_eq_self (fun ch hm => (hchars ch hm).1),
        stripChar_eq_self (fun ch hm => (hchars ch hm).2)]
    have hcolonmem : ':' ∈ a ++ ':' :: (b ++ ':' :: c) :=
      List.mem_append.mpr (Or.inr (List.mem_cons_self _ _))
    have hsplit : pySplit ':' (a ++ ':' :: (b ++ ':' :: c)) = [a, b, c] := by
      rw [pySplit_append (fun hm => absurd rfl (hAch ':' hm).2.2),
        pySplit_append (fun hm => absurd rfl (hBch ':' hm).2.2),
        pySplit_not_mem (fun hm => absurd rfl (hCch ':' hm).2.2)]
    have hcol : colonSum? (a ++ ':' :: (b ++ ':' :: c)) =
        some (H * 3600 + M * 60 + S) := by
      unfold colonSum?
      rw [hsplit]
      dsimp only
      rw [hAv, hBv, hCv]
    simp only [toSeconds]
    rw [hstrip]
    rw [if_neg (by
      simp only [List.isEmpty_iff]
      intro he
      rw [he] at hcolonmem
      cases hcolonmem)]
    rw [if_neg (by
      intro hall
      have := List.all_eq_true.mp hall ':' hcolonmem
      exact absurd this (by decide))]
    rw [hcol]
    exact congrArg Except.ok (by ring)
  · intro x hx
    simp only [toSeconds]
    rw [hx]
    rfl
  · intro x hnotdig hcol hflt
    simp only [toSeconds]
    by_cases he : (stripChar '\'' (stripWs x)).isEmpty = true
    · rw [if_pos he]
    · rw [if_neg he]
      have hne : stripChar '\'' (stripWs x) ≠ [] := by
        intro e
        rw [List.isEmpty_iff] at he
        exact he e
      rw [if_neg (fun hall => hnotdig ⟨hne, hall⟩), hcol, hflt]
      rfl
  · intro x hascii
    simp only [toSeconds]
    have hsub : ∀ ch ∈ stripChar '\'' (stripWs x), ch ∈ x :=
      fun ch h => mem_of_mem_stripWs (mem_of_mem_stripChar h)
    by_cases he : (stripChar '\'' (stripWs x)).isEmpty = true
    · exact ⟨0, by rw [if_pos he]⟩
    · rw [if_neg he]
      by_cases hall : (stripChar '\'' (stripWs x)).all pyIsDigitChar = true
      · rw [if_pos hall]
        have hd : ∀ ch ∈ stripChar '\'' (stripWs x), ch.isDigit = true :=
          fun ch h => ascii_pyDigit_isDigit (hascii ch (hsub ch h))
            (List.all_eq_true.mp hall ch h)
        have hne : stripChar '\'' (stripWs x) ≠ [] := by
          intro e
          rw [List.isEmpty_iff] at he
          exact he e
        rw [pythonInt?_digits hne hd]
        exact ⟨_, rfl⟩
      · rw [if_neg hall]
        cases hc : colonSum? (stripChar '\'' (stripWs x)) with
        | some n => exact ⟨n, rfl⟩
        | none => exact ⟨(pythonFloatInt? (stripChar '\'' (stripWs x))).getD 0, rfl⟩

/-- Witness: the H:M:S formula applied to the concrete string 1:2:3. -/
theorem to_seconds_spec_witness :
    toSeconds (some (lit "1" ++ ':' :: (lit "2" ++ ':' :: lit "3"))) = .ok 3723 := by
  have h := to_seconds_spec.1 (lit "1") (lit "2") (lit "3") 1 2 3
    ⟨by decide, by decide⟩ ⟨by decide, by decide⟩ ⟨by decide, by decide⟩
  rw [h]
  norm_num

/-- Counterexample to claim C8 as stated: the superscript-two character
(U+00B2) is accepted by the isdigit test but rejected by int, whose call
sits outside every try block, so to_seconds raises a ValueError instead
of returning. -/
theorem to_seconds_raises_on_superscript :
    pyIsDigitChar (Char.ofNat 178) = true ∧
    pythonInt? [Char.ofNat 178] = none ∧
    toSeconds (some [Char.ofNat 178]) = .error () :=
  ⟨by decide, by decide, rfl⟩

/-- Claim C9 (amended): to_seconds always returns an integer, returns 0
on the absent value, and returns a non-negative integer on every input
containing no minus sign - hence duration_seconds is non-negative for any
file whose duration cells contain no minus sign - but a negative numeric
string parses to a negative value. -/
theorem to_seconds_nonneg_without_minus :
    (∀ s : Str, '-' ∉ s → ∀ n : Int, toSeconds (some s) = .ok n → 0 ≤ n) ∧
    toSeconds none = .ok 0 ∧
    (∀ rows recs, standardizeCore rows = .ok recs →
      (∀ row ∈ rows, '-' ∉ extractStr row.duration) →
      ∀ r ∈ recs, 0 ≤ r.duration) := by
  refine ⟨toSeconds_nonneg_aux, rfl, ?_⟩
  intro rows recs h hall r hr
  obtain ⟨row, hrow, d, hd, hrec⟩ := stdRows_mem h hr
  subst hrec
  exact toSeconds_nonneg_aux _ (hall row hrow) d hd

/-- Witness: non-negativity applied to the concrete input 45. -/
theorem to_seconds_nonneg_without_minus_witness :
    toSeconds (some (lit "45")) = .ok 45 ∧ (0 : Int) ≤ 45 :=
  ⟨rfl, to_seconds_nonneg_without_minus.1 (lit "45") (by decide) 45 rfl⟩

/-- Counterexample to claim C9 as stated: the input -5 parses to the
negative integer -5. -/
theorem to_seconds_negative_result :
    toSeconds (some (lit "-5")) = .ok (-5) ∧ (-5 : Int) < 0 :=
  ⟨rfl, by decide⟩

end ECCHO
